import Mathlib

/-!
Verification of the gen-mandarin-anki tool (src/main.rs) against its
natural-language specification.  Strings are modelled as `List Char`;
external collaborators (the dictionary segmenter `tokenize`, dictionary
lookup `query_by_chinese`, the syllable encoder `encode_zhuyin`, the
pinyin parser, the translation service and the interactive prompt) are
taken as function parameters, since they live outside this repository.
-/

namespace GenAnki

/-- Model of the dictionary collaborator record `WordEntry`
(chinese_dictionary crate), restricted to the fields the program reads:
`traditional`, `pinyin_numbers` (tone-numbered romanization),
`pinyin_marks` and the English gloss list. -/
structure WordEntry where
  traditional : List Char
  pinyin_numbers : List Char
  pinyin_marks : List Char
  english : List (List Char)
deriving DecidableEq

/-- Model of `struct Token` from main.rs: a piece of the input text plus
the optional dictionary lookup result. `none` marks a non-Mandarin
character; `some []` marks a segmenter word with no dictionary hit. -/
structure Token where
  text : List Char
  word_entry : Option (List WordEntry)
deriving DecidableEq

/-- Model of `struct MandarinSentence` from main.rs. -/
structure MandarinSentence where
  raw_sentence : List Char
  tokens : List Token

/-- Index of the first occurrence of `t` as a contiguous sublist of `s`,
modelling Rust `str::find` applied to a substring pattern. -/
def findFrom (t : List Char) : List Char → Option Nat
  | [] => if t.isPrefixOf ([] : List Char) then some 0 else none
  | c :: rest =>
    if t.isPrefixOf (c :: rest) then some 0
    else Option.map (· + 1) (findFrom t rest)

/-- Model of `tokenise_sentence` from main.rs.  The segmenter output
(the external `tokenize(original_sentence)` call) is passed in as the
list `toks`; `query` models `query_by_chinese`.  The walk over the
original sentence is expressed on the suffix from the cursor onwards:
`find` locates the next occurrence of the segmenter word, characters
before it become single-character tokens with no entries, the word
itself becomes a token carrying its lookup result, and the cursor
advances past the word; after the last word the remaining characters
become single-character tokens.  The `Option` result models the
`.unwrap()` on `find`: `none` when some segmenter word does not occur
at or after the cursor. -/
def tokenise_sentence (query : List Char → List WordEntry) :
    List (List Char) → List Char → Option (List Token)
  | [], s => some (s.map (fun c => { text := [c], word_entry := none }))
  | t :: rest, s =>
    match findFrom t s with
    | none => none
    | some i =>
      Option.map
        (fun tl =>
          (s.take i).map (fun c => { text := [c], word_entry := none })
            ++ { text := t, word_entry := some (query t) } :: tl)
        (tokenise_sentence query rest (s.drop (i + t.length)))

/-- Markup emitted for an opening emphasis delimiter in main.rs. -/
def open_span : List Char := "<span class=starred>".toList

/-- Markup emitted for a closing emphasis delimiter in main.rs. -/
def close_span : List Char := "</span>".toList

/-- State-passing form of the loop inside `MandarinSentence::build_note_sentence`
(main.rs): the mutable `have_seen_star` flag becomes an explicit boolean
threaded through the walk, and the final flag value is returned
alongside the rendered text.  The replacement for a delimiter token is
chosen from the current flag (false selects the opening span, true the
closing tag) and the flag is then toggled. -/
def build_note_sentence_go (seen : Bool) : List Token → List Char × Bool
  | [] => ([], seen)
  | t :: rest =>
    if t.text = ['*'] then
      let out := build_note_sentence_go (!seen) rest
      ((if seen then close_span else open_span) ++ out.1, out.2)
    else
      let out := build_note_sentence_go seen rest
      (t.text ++ out.1, out.2)

/-- Model of `MandarinSentence::build_note_sentence` from main.rs. -/
def MandarinSentence.build_note_sentence (s : MandarinSentence) : List Char :=
  (build_note_sentence_go false s.tokens).1

/-- Model of `MandarinSentence::build_plain_sentence` from main.rs: the
delimiter token is emitted as the empty string, every other token text
is emitted unchanged, and the pieces are concatenated. -/
def MandarinSentence.build_plain_sentence (s : MandarinSentence) : List Char :=
  (s.tokens.map (fun t => if t.text = ['*'] then [] else t.text)).flatten

/-- Number of delimiter tokens in a token sequence. -/
def star_count (ts : List Token) : Nat :=
  ts.countP (fun t => decide (t.text = ['*']))

/-- Rendering described by the spec for the emphasis renderer, written
from the words of the claim: with `occ` delimiter occurrences already
seen, the next delimiter occurrence (1-based index `occ + 1`) becomes
an opening span when that index is odd and a closing tag when it is
even; every other token passes through unchanged. -/
def note_sentence_spec (occ : Nat) : List Token → List Char
  | [] => []
  | t :: rest =>
    if t.text = ['*'] then
      (if (occ + 1) % 2 = 1 then open_span else close_span)
        ++ note_sentence_spec (occ + 1) rest
    else t.text ++ note_sentence_spec occ rest

/-- Counts of opening spans and closing tags emitted for the delimiter
tokens of a sequence under the odd/even occurrence rule, starting after
`occ` earlier occurrences. -/
def emphasis_emissions (occ : Nat) : List Token → Nat × Nat
  | [] => (0, 0)
  | t :: rest =>
    if t.text = ['*'] then
      let out := emphasis_emissions (occ + 1) rest
      if (occ + 1) % 2 = 1 then (out.1 + 1, out.2) else (out.1, out.2 + 1)
    else emphasis_emissions occ rest

/-- Concrete three-token sentence used to witness the renderer theorems. -/
def sampleSentence : MandarinSentence :=
  { raw_sentence := "a*b".toList,
    tokens := [{ text := ['a'], word_entry := none },
               { text := ['*'], word_entry := none },
               { text := ['b'], word_entry := none }] }

/-- Whitespace splitter modelling Rust `str::split_whitespace` on the
character level: maximal runs of non-whitespace characters, in order,
with empty runs discarded.  `cur` accumulates the current run in
reverse. -/
def split_whitespace_go (cur : List Char) : List Char → List (List Char)
  | [] => if cur = [] then [] else [cur.reverse]
  | c :: rest =>
    if c.isWhitespace then
      if cur = [] then split_whitespace_go [] rest
      else cur.reverse :: split_whitespace_go [] rest
    else split_whitespace_go (c :: cur) rest

/-- Entry point of the whitespace splitter. -/
def split_whitespace (s : List Char) : List (List Char) :=
  split_whitespace_go [] s

/-- Per-syllable step of `DeriveZhuyin::derive_zhuyin` (main.rs):
`encode_zhuyin(pinyin).or(Some(pinyin.to_string())).unwrap()`, with the
external `pinyin_zhuyin::encode_zhuyin` passed in as `enc`. -/
def encode_or_passthrough (enc : List Char → Option (List Char))
    (pinyin : List Char) : List Char :=
  ((enc pinyin).or (some pinyin)).get!

/-- Model of the `DeriveZhuyin` impl for `WordEntry` (main.rs): split
the tone-numbered romanization on whitespace, convert each syllable
with the external encoder falling back to the syllable itself, and join
the results with commas. -/
def WordEntry.derive_zhuyin (enc : List Char → Option (List Char))
    (w : WordEntry) : List Char :=
  List.intercalate [',']
    ((split_whitespace w.pinyin_numbers).map (encode_or_passthrough enc))

/-- Model of the collection loop after `join_all` in `main` (main.rs).
Each element models one join result: `Except.error` a task that
panicked (a JoinError), `Except.ok none` a row that produced no card,
`Except.ok (some x)` a produced card.  The loop unwraps every join
result, so a JoinError panics the collecting task, modelled as
`Except.error` for the whole collection. -/
def collect_notes {α : Type} : List (Except Unit (Option α)) → Except Unit (List α)
  | [] => Except.ok []
  | Except.error _ :: _ => Except.error ()
  | Except.ok none :: rest => collect_notes rest
  | Except.ok (some x) :: rest => Except.map (fun l => x :: l) (collect_notes rest)

/-- Collection behaviour described by the claim for C3, written from
the words of the spec: a failed row task is converted to a missing
result for that row and the batch continues with the remaining rows. -/
def collect_notes_spec {α : Type} (results : List (Except Unit (Option α))) : List α :=
  results.filterMap (fun r =>
    match r with
    | Except.ok (some x) => some x
    | _ => none)

/-- True exactly on a join result recording a task panic. -/
def is_join_error {α : Type} : Except Unit (Option α) → Bool
  | Except.error _ => true
  | Except.ok _ => false

/-- Leftmost, non-overlapping replacement of the pattern `pat` by
`rep`, modelling Rust `str::replace` for a non-empty pattern (both
patterns the program uses are non-empty). -/
def replaceList (pat rep : List Char) : List Char → List Char
  | [] => []
  | c :: rest =>
    if pat ≠ [] ∧ pat.isPrefixOf (c :: rest) then
      rep ++ replaceList pat rep (rest.drop (pat.length - 1))
    else
      c :: replaceList pat rep rest
termination_by l => l.length
decreasing_by
  all_goals simp only [List.length_cons, List.length_drop]
  all_goals omega

/-- Separator normalization inside `convert_pinyin_to_zhuyin`
(main.rs): spaces become half-width commas, then each full-width comma
followed by a half-width comma collapses to the full-width comma
alone. -/
def normalize_separators (p : List Char) : List Char :=
  replaceList ['，', ','] ['，'] (replaceList [' '] [','] p)

/-- Model of `convert_pinyin_to_zhuyin` (main.rs).  The external
pinyin-parser pipeline (parse, per-syllable zhuyin mapping with
passthrough, collect), wrapped in `catch_unwind`, is the parameter
`parseRun`; `Except.error` models a parser panic caught there. -/
def convert_pinyin_to_zhuyin (parseRun : List Char → Except Unit (List Char))
    (pinyin_reading : List Char) : Except Unit (List Char) :=
  parseRun (normalize_separators pinyin_reading)

/-- Model of the conversion-and-prompt logic of `get_transliteration`
(main.rs), starting from the pinyin text already returned by the
transliteration service.  `promptRun` models the blocking
`readline_with_initial` manual correction; the returned number counts
its invocations.  `Except.error` models the final `.unwrap()` panic
after a second conversion failure, fatal for the row task running this
call. -/
def get_transliteration (parseRun : List Char → Except Unit (List Char))
    (promptRun : List Char → List Char) (pinyin_reading : List Char) :
    Except Unit ((List Char × List Char) × Nat) :=
  match convert_pinyin_to_zhuyin parseRun pinyin_reading with
  | Except.ok zhuyin_reading => Except.ok ((pinyin_reading, zhuyin_reading), 0)
  | Except.error _ =>
    let line := promptRun pinyin_reading
    match convert_pinyin_to_zhuyin parseRun line with
    | Except.ok zhuyin_reading => Except.ok ((pinyin_reading, zhuyin_reading), 1)
    | Except.error _ => Except.error ()

/-- Outcome of the per-row dispatch in `main` (main.rs). -/
inductive RowAction where
  | word
  | sentence
  | skipped
deriving DecidableEq

/-- Model of the `match tokenised_sentence.len()` dispatch in `main`
(main.rs): length 1 spawns `process_word`, length 2 or more spawns
`process_sentence`, anything else (only length 0 remains) falls to the
empty arm and produces nothing. -/
def classify_row (tokens : List Token) : RowAction :=
  match tokens.length with
  | 1 => RowAction.word
  | _ + 2 => RowAction.sentence
  | _ => RowAction.skipped

/-- Model of `Token::build_definition` (main.rs): the English glosses
of all matched entries joined with a comma and space, or `none` when
there is no entry list or the joined text is empty. -/
def Token.build_definition (t : Token) : Option (List Char) :=
  match t.word_entry with
  | some word_entry =>
    let definition := List.intercalate [',', ' ']
      ((word_entry.map WordEntry.english).flatten)
    match definition.length with
    | 0 => none
    | _ => some definition
  | none => none

/-- Model of the definition fallback chain in `process_word` (main.rs):
the row-supplied override when present, else the dictionary definition,
else the translation service (passed in as `translate`). -/
def word_definition (translate : List Char → List Char) (t : Token)
    (definition : Option (List Char)) : List Char :=
  match definition with
  | some definition => definition
  | none =>
    match t.build_definition with
    | some definition => definition
    | none => translate t.text

/-- Model of `Token::build_reading_allow_multiple` (main.rs): the entry
readings joined with commas, an empty join giving `none`; the branch
for a missing entry list is the `todo!()` in the source, which panics,
modelled as `Except.error`. -/
def Token.build_reading_allow_multiple (enc : List Char → Option (List Char))
    (t : Token) : Except Unit (Option (List Char)) :=
  match t.word_entry with
  | some word_entry =>
    let reading := List.intercalate [',']
      (word_entry.map (WordEntry.derive_zhuyin enc))
    match reading.length with
    | 0 => Except.ok none
    | _ => Except.ok (some reading)
  | none => Except.error ()

/-- Early-exit guard at the top of `process_word` (main.rs): the word
is processed further only when the token has an entry list and that
list is not empty. -/
def word_guard (t : Token) : Bool :=
  match t.word_entry with
  | some word_entry => decide (word_entry.length ≠ 0)
  | none => false

/-- Model of `struct SimilarWord` (main.rs). -/
structure SimilarWord where
  word : List Char
  translation : List Char

/-- The two phonetic notation choices of `enum MandarinReading`
(main.rs). -/
inductive MandarinReading where
  | Zhuyin
  | Pinyin

/-- Model of `SimilarWord::build_string` (main.rs), with the dictionary
lookup `query_by_chinese` passed in as `query`.  The source indexes
`query_result[0]` unconditionally in both notation branches; an empty
lookup result therefore panics with an out-of-bounds index, modelled as
`none`. -/
def SimilarWord.build_string (enc : List Char → Option (List Char))
    (query : List Char → List WordEntry) (sw : SimilarWord)
    (reading : MandarinReading) : Option (List Char) :=
  match query sw.word with
  | [] => none
  | q0 :: qrest =>
    let reading_str : List Char :=
      match reading with
      | MandarinReading.Zhuyin =>
        if q0.traditional.length = sw.word.length then q0.derive_zhuyin enc
        else List.intercalate [',']
          ((q0 :: qrest).map (WordEntry.derive_zhuyin enc))
      | MandarinReading.Pinyin =>
        if q0.traditional.length = sw.word.length then q0.pinyin_marks
        else List.intercalate [' '] ((q0 :: qrest).map WordEntry.pinyin_marks)
    some (sw.word ++ [',', ' '] ++ reading_str ++ [',', ' '] ++ sw.translation)

/-- Concrete dictionary entry used by witnesses. -/
def sampleEntry : WordEntry :=
  { traditional := ['好'], pinyin_numbers := "hao3".toList,
    pinyin_marks := "hǎo".toList, english := ["good".toList] }

/-- Concrete token with one dictionary entry, used by witnesses. -/
def sampleWordToken : Token :=
  { text := ['好'], word_entry := some [sampleEntry] }

/-- Concrete token with no dictionary entries, used by witnesses. -/
def samplePlainToken : Token := { text := ['x'], word_entry := none }

end GenAnki

namespace GenAnki

theorem isPrefixOf_append {t s : List Char} (h : t.isPrefixOf s = true) :
    ∃ u, s = t ++ u := by
  induction t generalizing s with
  | nil => exact ⟨s, rfl⟩
  | cons a as ih =>
    cases s with
    | nil => simp [List.isPrefixOf] at h
    | cons b bs =>
      simp only [List.isPrefixOf, Bool.and_eq_true, beq_iff_eq] at h
      obtain ⟨u, hu⟩ := ih h.2
      exact ⟨u, by simp [h.1, hu]⟩

theorem findFrom_decomp {t s : List Char} {i : Nat}
    (h : findFrom t s = some i) :
    s.take i ++ t ++ s.drop (i + t.length) = s := by
  induction s generalizing i with
  | nil =>
    unfold findFrom at h
    split at h
    · rename_i hp
      obtain rfl : t = [] := by
        cases t with
        | nil => rfl
        | cons a as => simp [List.isPrefixOf] at hp
      obtain rfl : i = 0 := by simpa using h.symm
      rfl
    · exact absurd h (by simp)
  | cons c rest ih =>
    unfold findFrom at h
    split at h
    · rename_i hp
      obtain ⟨u, hu⟩ := isPrefixOf_append hp
      obtain rfl : i = 0 := by simpa using h.symm
      rw [hu]
      simp [List.drop_left]
    · rename_i hp
      obtain ⟨j, hj, rfl⟩ : ∃ j, findFrom t rest = some j ∧ i = j + 1 := by
        cases hfr : findFrom t rest with
        | none => rw [hfr] at h; simp at h
        | some j => rw [hfr] at h; simp at h; exact ⟨j, rfl, h.symm⟩
      have harith : j + 1 + t.length = (j + t.length) + 1 := by omega
      simp only [List.take_succ_cons, harith, List.drop_succ_cons,
        List.cons_append]
      exact congrArg (c :: ·) (ih hj)

theorem flatten_map_singleton (l : List Char) :
    (l.map (fun c => [c])).flatten = l := by
  induction l with
  | nil => rfl
  | cons c rest ih => simp [ih]

/-- C1: for every input string and every segmenter output whose words
all occur in the input at or after the running cursor (that is,
`tokenise_sentence` does not hit the failing `find`), concatenating the
`text` fields of the returned tokens, in order, reproduces the input
string exactly. -/
theorem tokenise_sentence_lossless (query : List Char → List WordEntry)
    (toks : List (List Char)) (s : List Char) (ts : List Token)
    (h : tokenise_sentence query toks s = some ts) :
    (ts.map Token.text).flatten = s := by
  induction toks generalizing s ts with
  | nil =>
    simp only [tokenise_sentence, Option.some.injEq] at h
    subst h
    simp only [List.map_map]
    exact flatten_map_singleton s
  | cons t rest ih =>
    simp only [tokenise_sentence] at h
    split at h
    · exact absurd h (by simp)
    · rename_i i hfr
      obtain ⟨tl, hrec, rfl⟩ := Option.map_eq_some'.mp h
      have htl := ih _ _ hrec
      simp only [List.map_append, List.map_map, List.map_cons,
        List.flatten_append, List.flatten_cons]
      rw [show (Token.text ∘ fun c => ({ text := [c], word_entry := none } : Token))
            = (fun c => [c]) from rfl]
      rw [flatten_map_singleton, htl]
      have hdec := findFrom_decomp hfr
      rw [List.append_assoc] at hdec
      exact hdec

/-- Witness for C1 at the concrete input "ab" with segmenter output ["b"]. -/
theorem tokenise_sentence_lossless_witness :
    tokenise_sentence (fun _ => []) [['b']] ['a', 'b'] =
      some [{ text := ['a'], word_entry := none },
            { text := ['b'], word_entry := some [] }] ∧
    (([{ text := ['a'], word_entry := none },
        { text := ['b'], word_entry := some ([] : List WordEntry) }].map
          Token.text).flatten = ['a', 'b']) :=
  ⟨by decide, tokenise_sentence_lossless (fun _ => []) [['b']] ['a', 'b'] _ (by decide)⟩

theorem parity_toggle (occ : Nat) :
    (!decide (occ % 2 = 1)) = decide ((occ + 1) % 2 = 1) := by
  rcases Nat.mod_two_eq_zero_or_one occ with h | h <;> simp [h, Nat.add_mod]

theorem build_note_sentence_go_spec (ts : List Token) (occ : Nat) :
    (build_note_sentence_go (decide (occ % 2 = 1)) ts).1
      = note_sentence_spec occ ts := by
  induction ts generalizing occ with
  | nil => rfl
  | cons t rest ih =>
    by_cases hstar : t.text = ['*']
    · simp only [build_note_sentence_go, note_sentence_spec, if_pos hstar]
      rw [parity_toggle occ, ih (occ + 1)]
      congr 1
      rcases Nat.mod_two_eq_zero_or_one occ with h | h <;> simp [h, Nat.add_mod]
    · simp only [build_note_sentence_go, note_sentence_spec, if_neg hstar]
      rw [ih occ]

theorem build_note_sentence_go_state (ts : List Token) (seen : Bool) :
    (build_note_sentence_go seen ts).2
      = xor seen (decide (star_count ts % 2 = 1)) := by
  induction ts generalizing seen with
  | nil => simp [build_note_sentence_go, star_count]
  | cons t rest ih =>
    by_cases hstar : t.text = ['*']
    · simp only [build_note_sentence_go, if_pos hstar, star_count,
        List.countP_cons, hstar]
      rw [ih (!seen)]
      cases seen <;>
        rcases Nat.mod_two_eq_zero_or_one (rest.countP (fun t => decide (t.text = ['*'])))
          with h | h <;>
        simp [star_count, h, Nat.add_mod]
    · simp only [build_note_sentence_go, if_neg hstar, star_count,
        List.countP_cons, hstar]
      rw [ih seen]
      simp [star_count]

theorem emphasis_emissions_formula (ts : List Token) (occ : Nat) :
    emphasis_emissions occ ts =
      ((occ + star_count ts + 1) / 2 - (occ + 1) / 2,
       (occ + star_count ts) / 2 - occ / 2) := by
  induction ts generalizing occ with
  | nil => simp [emphasis_emissions, star_count, Prod.ext_iff]
  | cons t rest ih =>
    have hsc : star_count (t :: rest)
        = star_count rest + (if t.text = ['*'] then 1 else 0) := by
      simp [star_count, List.countP_cons]
    by_cases hstar : t.text = ['*']
    · rw [hsc, if_pos hstar]
      simp only [emphasis_emissions, if_pos hstar, ih (occ + 1)]
      by_cases hocc : (occ + 1) % 2 = 1
      · rw [if_pos hocc]
        refine Prod.ext ?_ ?_ <;> simp <;> omega
      · rw [if_neg hocc]
        refine Prod.ext ?_ ?_ <;> simp <;> omega
    · rw [hsc, if_neg hstar]
      simp only [emphasis_emissions, if_neg hstar, ih occ]
      simp

/-- C2: for every token sequence, `build_note_sentence` replaces the
k-th delimiter token by an opening span when k is odd and a closing tag
when k is even, emitting every other token unchanged (equality with the
occurrence-indexed spec rendering); the trailing emphasized state after
the walk is exactly the parity of the delimiter count, so an odd count
leaves it open; and the numbers of opening and closing emissions are
(n + 1) / 2 and n / 2 for n delimiter tokens, which agree exactly when
n is even (balanced markup). -/
theorem build_note_sentence_emphasis_policy (s : MandarinSentence) :
    s.build_note_sentence = note_sentence_spec 0 s.tokens ∧
    (build_note_sentence_go false s.tokens).2
      = decide (star_count s.tokens % 2 = 1) ∧
    emphasis_emissions 0 s.tokens
      = ((star_count s.tokens + 1) / 2, star_count s.tokens / 2) := by
  refine ⟨?_, ?_, ?_⟩
  · have h := build_note_sentence_go_spec s.tokens 0
    simpa [MandarinSentence.build_note_sentence] using h
  · have h := build_note_sentence_go_state s.tokens false
    simpa using h
  · have h := emphasis_emissions_formula s.tokens 0
    simpa using h

/-- C6: for every token sequence in which the delimiter character
appears only as the delimiter token itself, the plain rendering
contains no delimiter character, and every character of the rendering
comes unchanged from some non-delimiter token (so no markup is ever
introduced). -/
theorem build_plain_sentence_no_delimiter (s : MandarinSentence)
    (h : ∀ t ∈ s.tokens, t.text = ['*'] ∨ '*' ∉ t.text) :
    '*' ∉ s.build_plain_sentence ∧
    ∀ c ∈ s.build_plain_sentence,
      ∃ t ∈ s.tokens, t.text ≠ ['*'] ∧ c ∈ t.text := by
  constructor
  · intro hc
    simp only [MandarinSentence.build_plain_sentence, List.mem_flatten] at hc
    obtain ⟨l, hl, hcl⟩ := hc
    simp only [List.mem_map] at hl
    obtain ⟨t, ht, rfl⟩ := hl
    by_cases hstar : t.text = ['*']
    · rw [if_pos hstar] at hcl
      exact absurd hcl (by simp)
    · rw [if_neg hstar] at hcl
      rcases h t ht with h1 | h1
      · exact hstar h1
      · exact h1 hcl
  · intro c hc
    simp only [MandarinSentence.build_plain_sentence, List.mem_flatten] at hc
    obtain ⟨l, hl, hcl⟩ := hc
    simp only [List.mem_map] at hl
    obtain ⟨t, ht, rfl⟩ := hl
    by_cases hstar : t.text = ['*']
    · rw [if_pos hstar] at hcl
      exact absurd hcl (by simp)
    · rw [if_neg hstar] at hcl
      exact ⟨t, ht, hstar, hcl⟩

/-- Witness for C6 at a concrete sentence with one delimiter among two
plain tokens. -/
theorem build_plain_sentence_no_delimiter_witness :
    '*' ∉ sampleSentence.build_plain_sentence ∧
    ∀ c ∈ sampleSentence.build_plain_sentence,
      ∃ t ∈ sampleSentence.tokens, t.text ≠ ['*'] ∧ c ∈ t.text :=
  build_plain_sentence_no_delimiter sampleSentence (by decide)

/-- C3 counterexample: a batch consisting of a single panicked row
task.  The collection loop panics on the unwrapped join error instead
of converting it to a missing result, so the collection result is not
the batch the claim describes. -/
theorem collect_notes_not_missing_result :
    collect_notes ([Except.error ()] : List (Except Unit (Option Nat)))
        = Except.error () ∧
    collect_notes ([Except.error ()] : List (Except Unit (Option Nat)))
        ≠ Except.ok
          (collect_notes_spec ([Except.error ()] : List (Except Unit (Option Nat)))) := by
  refine ⟨rfl, ?_⟩
  intro h
  simp [collect_notes] at h

/-- C3 amended: the join barrier delivers one result per row with a
panic captured as an error value, so sibling tasks are unaffected
before collection; but the collection loop unwraps each join result,
so any panicked row aborts the whole collection, and only a batch with
no panicked row is collected (cardless rows skipped, cards kept in
order). -/
theorem collect_notes_characterisation {α : Type}
    (results : List (Except Unit (Option α))) :
    collect_notes results =
      if results.any is_join_error then Except.error ()
      else Except.ok (collect_notes_spec results) := by
  induction results with
  | nil => rfl
  | cons r rest ih =>
    match r with
    | Except.error e =>
      simp [collect_notes, is_join_error]
    | Except.ok none =>
      rw [show collect_notes (Except.ok none :: rest) = collect_notes rest from rfl, ih]
      by_cases h : rest.any is_join_error <;>
        simp [h, is_join_error, collect_notes_spec]
    | Except.ok (some x) =>
      rw [show collect_notes (Except.ok (some x) :: rest)
            = Except.map (fun l => x :: l) (collect_notes rest) from rfl, ih]
      by_cases h : rest.any is_join_error <;>
        simp [h, is_join_error, collect_notes_spec, Except.map]

/-- C4: when conversion of the separator-normalized pinyin succeeds,
the manual prompt is never invoked and the original pinyin is paired
with the converted reading; when it fails, the operator is prompted
exactly once and the conversion is retried once on the corrected line;
a second failure panics, which is fatal for the row task running this
call. -/
theorem get_transliteration_prompt_policy
    (parseRun : List Char → Except Unit (List Char))
    (promptRun : List Char → List Char) (pinyin_reading : List Char) :
    (∀ z, convert_pinyin_to_zhuyin parseRun pinyin_reading = Except.ok z →
      get_transliteration parseRun promptRun pinyin_reading
        = Except.ok ((pinyin_reading, z), 0)) ∧
    (convert_pinyin_to_zhuyin parseRun pinyin_reading = Except.error () →
      (∀ z, convert_pinyin_to_zhuyin parseRun (promptRun pinyin_reading)
          = Except.ok z →
        get_transliteration parseRun promptRun pinyin_reading
          = Except.ok ((pinyin_reading, z), 1)) ∧
      (convert_pinyin_to_zhuyin parseRun (promptRun pinyin_reading)
          = Except.error () →
        get_transliteration parseRun promptRun pinyin_reading
          = Except.error ())) := by
  refine ⟨?_, ?_⟩
  · intro z hz
    simp [get_transliteration, hz]
  · intro h1
    refine ⟨?_, ?_⟩
    · intro z hz
      simp [get_transliteration, h1, hz]
    · intro h2
      simp [get_transliteration, h1, h2]

/-- Witness for C4 exercising all three paths: a conversion that
succeeds immediately (no prompt), one that succeeds on the single
retry after the prompt, and one that fails twice. -/
theorem get_transliteration_prompt_policy_witness :
    get_transliteration (fun _ => Except.ok ['z']) (fun _ => ['a']) ['b']
        = Except.ok ((['b'], ['z']), 0) ∧
    get_transliteration (fun s => if s = [','] then Except.error () else Except.ok s)
        (fun _ => ['a']) [' ']
        = Except.ok (([' '], ['a']), 1) ∧
    get_transliteration (fun _ => Except.error ()) (fun _ => ['a']) ['b']
        = Except.error () :=
  ⟨(get_transliteration_prompt_policy (fun _ => Except.ok ['z'])
      (fun _ => ['a']) ['b']).1 ['z'] rfl,
   ((get_transliteration_prompt_policy
      (fun s => if s = [','] then Except.error () else Except.ok s)
      (fun _ => ['a']) [' ']).2
      (by simp [convert_pinyin_to_zhuyin, normalize_separators, replaceList,
        List.isPrefixOf])).1 ['a']
      (by simp [convert_pinyin_to_zhuyin, normalize_separators, replaceList,
        List.isPrefixOf]),
   ((get_transliteration_prompt_policy (fun _ => Except.error ())
      (fun _ => ['a']) ['b']).2 rfl).2 rfl⟩

theorem encode_or_passthrough_eq_getD (enc : List Char → Option (List Char))
    (p : List Char) : encode_or_passthrough enc p = (enc p).getD p := by
  cases h : enc p <;> simp [encode_or_passthrough, h]

/-- C5: whenever the romanization field splits into at least one
whitespace-separated syllable and no converted-or-passed-through
syllable contains a comma, the derived reading splits on commas into
exactly one segment per syllable, each segment being the conversion of
its syllable when the encoder succeeds and the syllable itself
otherwise; per-syllable conversion itself never fails. -/
theorem derive_zhuyin_segments (enc : List Char → Option (List Char))
    (w : WordEntry)
    (hne : split_whitespace w.pinyin_numbers ≠ [])
    (hfree : ∀ p ∈ split_whitespace w.pinyin_numbers, ',' ∉ (enc p).getD p) :
    (w.derive_zhuyin enc).splitOn ','
        = (split_whitespace w.pinyin_numbers).map (fun p => (enc p).getD p) ∧
    ((w.derive_zhuyin enc).splitOn ',').length
        = (split_whitespace w.pinyin_numbers).length := by
  have hmap : (split_whitespace w.pinyin_numbers).map (encode_or_passthrough enc)
      = (split_whitespace w.pinyin_numbers).map (fun p => (enc p).getD p) :=
    List.map_congr_left (fun p _ => encode_or_passthrough_eq_getD enc p)
  have h1 : (w.derive_zhuyin enc).splitOn ','
      = (split_whitespace w.pinyin_numbers).map (fun p => (enc p).getD p) := by
    rw [WordEntry.derive_zhuyin, hmap]
    refine List.splitOn_intercalate _ ',' ?_ ?_
    · intro l hl
      obtain ⟨p, hp, rfl⟩ := List.mem_map.mp hl
      exact hfree p hp
    · simpa using hne
  exact ⟨h1, by rw [h1, List.length_map]⟩

/-- Witness for C5 at a two-syllable romanization with an encoder that
never converts, so both syllables pass through. -/
theorem derive_zhuyin_segments_witness :
    ((WordEntry.mk [] "ni3 hao3".toList [] []).derive_zhuyin (fun _ => none)).splitOn ','
        = (split_whitespace "ni3 hao3".toList).map
            (fun p => ((fun (_ : List Char) => (none : Option (List Char))) p).getD p) ∧
    (((WordEntry.mk [] "ni3 hao3".toList [] []).derive_zhuyin (fun _ => none)).splitOn ',').length
        = (split_whitespace "ni3 hao3".toList).length :=
  derive_zhuyin_segments (fun _ => none) (WordEntry.mk [] "ni3 hao3".toList [] [])
    (by decide) (by decide)

/-- C7: row dispatch is by token-sequence length: exactly one token is
processed as a word card, two or more as a sentence card, and zero
tokens is skipped with no card produced. -/
theorem classify_row_by_length (tokens : List Token) :
    (tokens.length = 1 → classify_row tokens = RowAction.word) ∧
    (2 ≤ tokens.length → classify_row tokens = RowAction.sentence) ∧
    (tokens.length = 0 → classify_row tokens = RowAction.skipped) := by
  refine ⟨?_, ?_, ?_⟩ <;> intro h
  · simp [classify_row, h]
  · obtain ⟨n, hn⟩ : ∃ n, tokens.length = n + 2 := ⟨tokens.length - 2, by omega⟩
    simp [classify_row, hn]
  · simp [classify_row, h]

/-- Witness for C7 at token sequences of lengths one, two and zero. -/
theorem classify_row_by_length_witness :
    classify_row [sampleWordToken] = RowAction.word ∧
    classify_row [samplePlainToken, samplePlainToken] = RowAction.sentence ∧
    classify_row [] = RowAction.skipped :=
  ⟨(classify_row_by_length [sampleWordToken]).1 rfl,
   (classify_row_by_length [samplePlainToken, samplePlainToken]).2.1 (by decide),
   (classify_row_by_length []).2.2 rfl⟩

/-- C8: the word definition is the row-supplied override when present;
otherwise the comma-joined English glosses of the dictionary entries
when that join is non-empty; otherwise the translation service result
on the word text. -/
theorem word_definition_fallback (translate : List Char → List Char)
    (t : Token) :
    (∀ d, word_definition translate t (some d) = d) ∧
    (∀ d, t.build_definition = some d → word_definition translate t none = d) ∧
    (t.build_definition = none →
      word_definition translate t none = translate t.text) ∧
    (t.word_entry = none → t.build_definition = none) ∧
    (∀ we, t.word_entry = some we →
      t.build_definition =
        (if (List.intercalate [',', ' '] ((we.map WordEntry.english).flatten)).length = 0
         then none
         else some (List.intercalate [',', ' '] ((we.map WordEntry.english).flatten)))) := by
  refine ⟨fun d => rfl, ?_, ?_, ?_, ?_⟩
  · intro d h
    simp [word_definition, h]
  · intro h
    simp [word_definition, h]
  · intro h
    simp [Token.build_definition, h]
  · intro we h
    simp only [Token.build_definition, h]
    cases hl : (List.intercalate [',', ' '] ((we.map WordEntry.english).flatten)).length with
    | zero => simp [hl]
    | succ n => simp [hl]

/-- Witness for C8: an override row, a dictionary-defined word, and an
entry-free token falling through to the translation service. -/
theorem word_definition_fallback_witness :
    word_definition (fun _ => ['T']) sampleWordToken (some ['d']) = ['d'] ∧
    word_definition (fun _ => ['T']) sampleWordToken none = "good".toList ∧
    word_definition (fun _ => ['T']) samplePlainToken none = ['T'] ∧
    samplePlainToken.build_definition = none ∧
    sampleWordToken.build_definition =
      (if (List.intercalate [',', ' ']
            (([sampleEntry].map WordEntry.english).flatten)).length = 0
       then none
       else some (List.intercalate [',', ' ']
            (([sampleEntry].map WordEntry.english).flatten))) :=
  ⟨(word_definition_fallback (fun _ => ['T']) sampleWordToken).1 ['d'],
   (word_definition_fallback (fun _ => ['T']) sampleWordToken).2.1
     "good".toList (by decide),
   (word_definition_fallback (fun _ => ['T']) samplePlainToken).2.2.1 (by decide),
   (word_definition_fallback (fun _ => ['T']) samplePlainToken).2.2.2.1 rfl,
   (word_definition_fallback (fun _ => ['T']) sampleWordToken).2.2.2.2
     [sampleEntry] rfl⟩

theorem split_whitespace_go_ne_nil (s : List Char) :
    ∀ cur, ∀ g ∈ split_whitespace_go cur s, g ≠ [] := by
  induction s with
  | nil =>
    intro cur g hg
    simp only [split_whitespace_go] at hg
    split at hg
    · simp at hg
    · rename_i hcur
      simp only [List.mem_singleton] at hg
      subst hg
      intro hrev
      exact hcur (by simpa using hrev)
  | cons c rest ih =>
    intro cur g hg
    simp only [split_whitespace_go] at hg
    split at hg
    · split at hg
      · exact ih [] g hg
      · rename_i hcur
        rcases List.mem_cons.mp hg with hg | hg
        · subst hg
          intro hrev
          exact hcur (by simpa using hrev)
        · exact ih [] g hg
    · exact ih (c :: cur) g hg

theorem mem_split_whitespace_ne_nil (s : List Char) :
    ∀ g ∈ split_whitespace s, g ≠ [] :=
  split_whitespace_go_ne_nil s []

theorem encode_or_passthrough_ne_nil (enc : List Char → Option (List Char))
    (henc : ∀ p, enc p ≠ some []) (p : List Char) (hp : p ≠ []) :
    encode_or_passthrough enc p ≠ [] := by
  rw [encode_or_passthrough_eq_getD]
  cases h : enc p with
  | none => simpa using hp
  | some z =>
    simp only [Option.getD_some]
    intro hz
    exact henc p (by rw [h, hz])

theorem intercalate_cons_ne_nil (sep x : List Char) (xs : List (List Char))
    (hx : x ≠ []) : List.intercalate sep (x :: xs) ≠ [] := by
  cases xs with
  | nil => simpa [List.intercalate] using hx
  | cons y ys =>
    simp [List.intercalate, List.intersperse_cons_cons, hx]

theorem derive_zhuyin_ne_nil (enc : List Char → Option (List Char))
    (henc : ∀ p, enc p ≠ some []) (w : WordEntry)
    (hw : split_whitespace w.pinyin_numbers ≠ []) :
    w.derive_zhuyin enc ≠ [] := by
  rw [WordEntry.derive_zhuyin]
  obtain ⟨p, ps, hps⟩ : ∃ p ps, split_whitespace w.pinyin_numbers = p :: ps := by
    cases h : split_whitespace w.pinyin_numbers with
    | nil => exact absurd h hw
    | cons p ps => exact ⟨p, ps, rfl⟩
  rw [hps, List.map_cons]
  exact intercalate_cons_ne_nil _ _ _
    (encode_or_passthrough_ne_nil enc henc p
      (mem_split_whitespace_ne_nil _ p (by rw [hps]; simp)))

/-- C9: the reading builder hits the unimplemented branch (a panic)
exactly on tokens with no entry list; under the process_word guard —
entry list present and non-empty — together with entries whose
romanization has at least one syllable and an encoder that never
returns an empty encoding, it returns a non-empty reading, so the
guard makes the panic unreachable and the unconditional unwrap in
build_word_note succeeds. -/
theorem build_reading_allow_multiple_partiality
    (enc : List Char → Option (List Char)) (t : Token) :
    (t.word_entry = none →
      t.build_reading_allow_multiple enc = Except.error ()) ∧
    (word_guard t = true →
      (∀ p, enc p ≠ some []) →
      (∀ e ∈ t.word_entry.getD [], split_whitespace e.pinyin_numbers ≠ []) →
      ∃ r, r ≠ [] ∧ t.build_reading_allow_multiple enc = Except.ok (some r)) := by
  constructor
  · intro h
    simp [Token.build_reading_allow_multiple, h]
  · intro hg henc hsyl
    cases he : t.word_entry with
    | none =>
      simp [word_guard, he] at hg
    | some we =>
      rw [he] at hsyl
      cases we with
      | nil =>
        simp [word_guard, he] at hg
      | cons e es =>
        have hr : List.intercalate [',']
            ((e :: es).map (WordEntry.derive_zhuyin enc)) ≠ [] := by
          rw [List.map_cons]
          exact intercalate_cons_ne_nil _ _ _
            (derive_zhuyin_ne_nil enc henc e (hsyl e (by simp)))
        refine ⟨List.intercalate [',']
            ((e :: es).map (WordEntry.derive_zhuyin enc)), hr, ?_⟩
        simp only [Token.build_reading_allow_multiple, he]
        cases hl : (List.intercalate [',']
            ((e :: es).map (WordEntry.derive_zhuyin enc))).length with
        | zero => exact absurd (List.length_eq_zero.mp hl) hr
        | succ n => simp [hl]

/-- Witness for C9: a token with no entries panics, while a guarded
token with one syllable-bearing entry yields a non-empty reading. -/
theorem build_reading_allow_multiple_partiality_witness :
    (samplePlainToken.build_reading_allow_multiple (fun _ => none)
        = Except.error ()) ∧
    (∃ r, r ≠ [] ∧ sampleWordToken.build_reading_allow_multiple (fun _ => none)
        = Except.ok (some r)) :=
  ⟨(build_reading_allow_multiple_partiality (fun _ => none) samplePlainToken).1 rfl,
   (build_reading_allow_multiple_partiality (fun _ => none) sampleWordToken).2
     (by decide) (fun p h => Option.noConfusion h) (by decide)⟩

/-- C10: build_string panics (out-of-bounds index on the lookup
result) exactly when the dictionary lookup of the suggested word
returns no entries, aborting that row task; otherwise it produces the
string word, reading, translation. -/
theorem similar_word_build_string_partiality
    (enc : List Char → Option (List Char))
    (query : List Char → List WordEntry) (sw : SimilarWord)
    (reading : MandarinReading) :
    (query sw.word = [] → sw.build_string enc query reading = none) ∧
    (query sw.word ≠ [] →
      ∃ rs, sw.build_string enc query reading
        = some (sw.word ++ [',', ' '] ++ rs ++ [',', ' '] ++ sw.translation)) := by
  constructor
  · intro h
    simp [SimilarWord.build_string, h]
  · intro h
    cases hq : query sw.word with
    | nil => exact absurd hq h
    | cons q0 qrest =>
      simp only [SimilarWord.build_string, hq]
      exact ⟨_, rfl⟩

/-- Witness for C10: a suggested word absent from the dictionary gives
the panic, a present one gives the formatted string. -/
theorem similar_word_build_string_partiality_witness :
    ((SimilarWord.mk ['你'] ['y']).build_string (fun _ => none) (fun _ => [])
        MandarinReading.Zhuyin = none) ∧
    (∃ rs, (SimilarWord.mk ['好'] ['g']).build_string (fun _ => none)
        (fun _ => [sampleEntry]) MandarinReading.Zhuyin
      = some (['好'] ++ [',', ' '] ++ rs ++ [',', ' '] ++ ['g'])) :=
  ⟨(similar_word_build_string_partiality (fun _ => none) (fun _ => [])
      (SimilarWord.mk ['你'] ['y']) MandarinReading.Zhuyin).1 rfl,
   (similar_word_build_string_partiality (fun _ => none) (fun _ => [sampleEntry])
      (SimilarWord.mk ['好'] ['g']) MandarinReading.Zhuyin).2 (by decide)⟩

end GenAnki
